import Mathlib

/-!
A verification development for the `ouroboros` code-generation core
(`src/ouroboros_macro/src/lib.rs`).  The source is a generator that turns a
declarative list of fields with borrow annotations into a self-referential
aggregate: it validates the borrow graph, classifies each field's role,
reverses the physical storage order, and synthesizes constructors (plain and
fallible), builders, scoped accessors, aggregate views and a heads extractor.

The shallow embedding below translates the validation and classification
logic directly from the source, and models the *runtime semantics of the
generated code* (constructors, `into_heads`, views) as explicit functions
over a value domain `V`.  Token-level parsing of the `borrows(...)`
attribute (commas, the `mut` keyword) is front-end plumbing; a borrow
annotation is represented here by its parsed form: a list of
(target name, mutable flag) pairs.  The "illegal static reference" to a
field's dereferenced contents is modelled as observing the field's stored
value; mutation through mutable ephemeral references is not modelled (it is
irrelevant to the ordering, error-propagation and set-of-fields properties
proved here).
-/

namespace Ouroboros

/-- Role of a field in the borrow graph (source: `enum FieldType`). -/
inductive FieldType where
  | Tail
  | Borrowed
  | BorrowedMut
deriving DecidableEq, Repr, Inhabited

/-- Source: `FieldType::is_tail`. -/
def FieldType.is_tail (t : FieldType) : Bool :=
  t == FieldType.Tail

/-- A resolved borrow request: index of the target field (in declaration
order) and whether the borrow is mutable (source: `struct BorrowRequest`). -/
structure BorrowRequest where
  index : Nat
  mutable : Bool
deriving DecidableEq, Repr

/-- A field of the catalogue after collection (source: `struct
StructFieldInfo`).  The declared type is kept as an opaque token. -/
structure StructFieldInfo where
  name : String
  typ : String
  field_type : FieldType
  borrows : List BorrowRequest
deriving DecidableEq, Repr, Inhabited

/-- A raw borrow annotation as handed over by the front end: the *name* of
the target field plus the mutability flag. -/
structure RawBorrow where
  target : String
  mutable : Bool
deriving DecidableEq, Repr

/-- A raw field as handed over by the front end: name, declared type and the
parsed contents of its `borrows(...)` attribute. -/
structure RawField where
  name : String
  typ : String
  rawBorrows : List RawBorrow
deriving DecidableEq, Repr

/-- The fatal diagnostics of the generator (source: the `panic!` calls in
`handle_borrows_attr` and `create_actual_struct`). -/
inductive GenError where
  | unknownIdentifier (name : String)
  | mutAfterImm (name : String)
  | doubleMut (name : String)
  | immAfterMut (name : String)
  | tooFewFields
  | allTailFields
deriving DecidableEq, Repr

/-- Source: `field_info.iter().position(|item| item.name == istr)`, returning
the found field as well.  Names are resolved among the fields already
collected, i.e. the fields declared strictly before the requesting one. -/
def findField : List StructFieldInfo → String → Option (Nat × StructFieldInfo)
  | [], _ => none
  | f :: fs, s =>
    if f.name == s then some (0, f)
    else (findField fs s).map (fun p => (p.1 + 1, p.2))

/-- Source: `field_info[index].field_type = ...;` (in-place role update). -/
def setRole : List StructFieldInfo → Nat → FieldType → List StructFieldInfo
  | [], _, _ => []
  | f :: fs, 0, r => { f with field_type := r } :: fs
  | f :: fs, n + 1, r => f :: setRole fs n r

/-- One borrow request of the `borrows(...)` attribute, resolved and checked
against the already collected fields.  This is the per-identifier body of the
loop of `handle_borrows_attr` (source lines 189-226): resolve the name among
previously declared fields, check the role-transition rules, update the
target's role, and record the resolved request. -/
def resolveBorrow (field_info : List StructFieldInfo) (target : String)
    (borrow_mut : Bool) :
    Except GenError (List StructFieldInfo × BorrowRequest) :=
  match findField field_info target with
  | none => .error (.unknownIdentifier target)
  | some (index, fld) =>
    if borrow_mut then
      if fld.field_type == .Borrowed then .error (.mutAfterImm target)
      else if fld.field_type == .BorrowedMut then .error (.doubleMut target)
      else .ok (setRole field_info index .BorrowedMut, ⟨index, true⟩)
    else
      if fld.field_type == .BorrowedMut then .error (.immAfterMut target)
      else .ok (setRole field_info index .Borrowed, ⟨index, false⟩)

/-- Source: `handle_borrows_attr` — processes the parsed requests of one
field's `borrows(...)` attribute in order, threading the role updates and
accumulating the resolved `BorrowRequest` list. -/
def handle_borrows_attr (field_info : List StructFieldInfo) :
    List RawBorrow → Except GenError (List StructFieldInfo × List BorrowRequest)
  | [] => .ok (field_info, [])
  | rb :: rest =>
    match resolveBorrow field_info rb.target rb.mutable with
    | .error e => .error e
    | .ok (fi, br) =>
      match handle_borrows_attr fi rest with
      | .error e => .error e
      | .ok (fi2, brs) => .ok (fi2, br :: brs)

/-- The field-collection loop of `create_actual_struct` (source lines
254-280): for each raw field in declaration order, handle its borrows
attribute against the fields collected so far, then push the field with role
`Tail` and its resolved borrow list. -/
def collectFieldsAux : List StructFieldInfo → List RawField →
    Except GenError (List StructFieldInfo)
  | acc, [] => .ok acc
  | acc, rf :: rest =>
    match handle_borrows_attr acc rf.rawBorrows with
    | .error e => .error e
    | .ok (acc2, brs) =>
      collectFieldsAux (acc2 ++ [⟨rf.name, rf.typ, .Tail, brs⟩]) rest

/-- The collected, classified field catalogue in declaration order. -/
def collectFields (raws : List RawField) : Except GenError (List StructFieldInfo) :=
  collectFieldsAux [] raws

/-- Source: `create_actual_struct` — collect and classify the fields, check
that there are at least two of them and that at least one is not a tail,
then produce the catalogue (declaration order) together with the physical
storage layout, which reverses the order of all fields (source lines
284-317). -/
def create_actual_struct (raws : List RawField) :
    Except GenError (List StructFieldInfo × List StructFieldInfo) :=
  match collectFields raws with
  | .error e => .error e
  | .ok field_info =>
    if field_info.length < 2 then .error .tooFewFields
    else if field_info.all (fun f => f.field_type.is_tail) then
      .error .allTailFields
    else .ok (field_info, field_info.reverse)

/-! ## Constructor argument shapes (source: `make_constructor_arg_type_impl`) -/

/-- The return type of a builder callback: the field's declared type in the
plain variant, `Result<T, Error_>` in the fallible variant. -/
inductive RetTy where
  | plainRet (typ : String)
  | resultRet (typ : String)
deriving DecidableEq, Repr

/-- The shape of one constructor argument (source: `enum ArgType`): either a
plain value of the declared type, or a `for<'this> FnOnce(...) -> ...` trait
bound whose parameters are, in request order, a reference (mutable per the
request's flag) to the dereferenced contents (`<T as Deref>::Target`) of
each borrowed field's declared type. -/
inductive ArgType where
  | Plain (typ : String)
  | TraitBound (params : List (Bool × String)) (ret : RetTy)
deriving DecidableEq, Repr

/-- Source: `make_constructor_arg_type_impl` (lines 90-119).  The parameter
list records, per borrow request in order, the mutability flag and the
declared type of the borrowed field (`other_fields[borrow.index]`), standing
for `&'this [mut] <typ as Deref>::Target`. -/
def make_constructor_arg_type_impl (for_field : StructFieldInfo)
    (other_fields : List StructFieldInfo) (ret : RetTy) : ArgType :=
  if for_field.borrows.length == 0 then .Plain for_field.typ
  else
    .TraitBound
      (for_field.borrows.map fun b =>
        (b.mutable, (other_fields.getD b.index default).typ))
      ret

/-- Source: `make_constructor_arg_type` — the `new` constructor's argument
shape; a builder callback returns the field's declared type directly. -/
def make_constructor_arg_type (for_field : StructFieldInfo)
    (other_fields : List StructFieldInfo) : ArgType :=
  make_constructor_arg_type_impl for_field other_fields (.plainRet for_field.typ)

/-- Source: `make_try_constructor_arg_type` — the `try_new` constructors'
argument shape; a builder callback returns `Result<T, Error_>`. -/
def make_try_constructor_arg_type (for_field : StructFieldInfo)
    (other_fields : List StructFieldInfo) : ArgType :=
  make_constructor_arg_type_impl for_field other_fields (.resultRet for_field.typ)

/-- One parameter of a generated constructor: its name, whether the binding
is `mut`, and its argument shape. -/
structure CtorParam where
  pname : String
  mutBinding : Bool
  argTy : ArgType
deriving DecidableEq, Repr

/-- The constructor parameter generated for one field by the loop of
`create_builder_and_constructor` (lines 384-448): a plain argument keeps the
field's name and is bound `mut` exactly when the field's role is
`BorrowedMut`; a trait-bound argument is named `<field>_builder` (source:
`StructFieldInfo::builder_name`). -/
def ctorParamOf (field_info : List StructFieldInfo) (f : StructFieldInfo) :
    CtorParam :=
  match make_constructor_arg_type f field_info with
  | .Plain t => ⟨f.name, f.field_type == .BorrowedMut, .Plain t⟩
  | .TraitBound ps r => ⟨f.name ++ "_builder", false, .TraitBound ps r⟩

/-- The fallible constructors' parameter for one field (loop of
`create_try_builder_and_constructor`, lines 549-624). -/
def tryCtorParamOf (field_info : List StructFieldInfo) (f : StructFieldInfo) :
    CtorParam :=
  match make_try_constructor_arg_type f field_info with
  | .Plain t => ⟨f.name, f.field_type == .BorrowedMut, .Plain t⟩
  | .TraitBound ps r => ⟨f.name ++ "_builder", false, .TraitBound ps r⟩

/-- The full parameter list of `new`, in declaration order. -/
def ctorParams (field_info : List StructFieldInfo) : List CtorParam :=
  field_info.map (ctorParamOf field_info)

/-- The full parameter list of `try_new` / `try_new_or_recover`, in
declaration order. -/
def tryCtorParams (field_info : List StructFieldInfo) : List CtorParam :=
  field_info.map (tryCtorParamOf field_info)

/-- One field of a generated builder struct: its name and the shape of the
value it stores.  The loop of `create_builder_and_constructor` pushes, for
each field, either `field_name: plain_type` or `field_name_builder:
<generic bounded by the trait bound>`. -/
def builderFieldOf (field_info : List StructFieldInfo) (f : StructFieldInfo) :
    String × ArgType :=
  match make_constructor_arg_type f field_info with
  | .Plain t => (f.name, .Plain t)
  | .TraitBound ps r => (f.name ++ "_builder", .TraitBound ps r)

/-- Like `builderFieldOf` for the fallible builder struct. -/
def tryBuilderFieldOf (field_info : List StructFieldInfo) (f : StructFieldInfo) :
    String × ArgType :=
  match make_try_constructor_arg_type f field_info with
  | .Plain t => (f.name, .Plain t)
  | .TraitBound ps r => (f.name ++ "_builder", .TraitBound ps r)

/-- The builder struct's fields, in the order the loop pushes them. -/
def builderStructFields (field_info : List StructFieldInfo) :
    List (String × ArgType) :=
  field_info.map (builderFieldOf field_info)

/-- The fallible builder struct's fields. -/
def tryBuilderStructFields (field_info : List StructFieldInfo) :
    List (String × ArgType) :=
  field_info.map (tryBuilderFieldOf field_info)

/-- The positional argument list of the generated `build()` body:
`StructName::new(self.f1, self.f2, ...)` with the builder struct's field
names in push order (source lines 460-473). -/
def buildCallArgs (field_info : List StructFieldInfo) : List String :=
  (builderStructFields field_info).map Prod.fst

/-- The positional argument list of `try_build()` / `try_build_or_recover()`
(source lines 643-662). -/
def tryBuildCallArgs (field_info : List StructFieldInfo) : List String :=
  (tryBuilderStructFields field_info).map Prod.fst

/-! ## Runtime semantics of the generated constructors

The generated `new` binds each field in declaration order: a plain argument
is moved in directly, a builder callback is invoked once with the "illegal
static references" to the dereferenced contents of the fields it borrows
(which, at that point, are already bound).  We model values of all fields by
a single domain `V`, observe a field's dereferenced contents as its stored
value, and instrument the run with the list of indices (declaration order)
whose builder callbacks were invoked. -/

/-- An argument of the generated `new`: a plain value or a builder callback
receiving the values of the borrowed fields, in request order. -/
inductive CtorArg (V : Type) where
  | plain (v : V)
  | builder (f : List V → V)

/-- An argument of the generated `try_new` / `try_new_or_recover`: builder
callbacks return `Result`. -/
inductive TryCtorArg (V E : Type) where
  | plain (v : V)
  | builder (f : List V → Except E V)

variable {V E : Type}

/-- The values a builder callback for `f` receives: the stored values of the
fields named by its borrow requests, in request order. -/
def depValues [Inhabited V] (f : StructFieldInfo) (env : List V) : List V :=
  f.borrows.map fun b => env.getD b.index default

/-- The body of the generated `new` (source lines 453-459): fields are bound
front to back in declaration order; `env` is the list of values bound so
far, the `Nat` is the declaration index of the next field, and the second
component of the result is the list of indices whose callbacks ran. -/
def newGo [Inhabited V] :
    Nat → List (StructFieldInfo × CtorArg V) → List V → List V × List Nat
  | _, [], env => (env, [])
  | i, (f, a) :: rest, env =>
    match a with
    | .plain v => newGo (i + 1) rest (env ++ [v])
    | .builder g =>
      let v := g (depValues f env)
      let r := newGo (i + 1) rest (env ++ [v])
      (r.1, i :: r.2)

/-- The generated `new`: returns the field values in declaration order
(`Self { f1, f2, ... }`, source line 457) and the invoked-callback trace. -/
def runNew [Inhabited V] (field_info : List StructFieldInfo)
    (args : List (CtorArg V)) : List V × List Nat :=
  newGo 0 (field_info.zip args) []

/-- The body of the generated `try_new` (source lines 629-634): like `new`,
but a builder callback's error is propagated immediately by `?`. -/
def tryGo [Inhabited V] :
    Nat → List (StructFieldInfo × TryCtorArg V E) → List V →
      Except E (List V) × List Nat
  | _, [], env => (.ok env, [])
  | i, (f, a) :: rest, env =>
    match a with
    | .plain v => tryGo (i + 1) rest (env ++ [v])
    | .builder g =>
      match g (depValues f env) with
      | .ok v =>
        let r := tryGo (i + 1) rest (env ++ [v])
        (r.1, i :: r.2)
      | .error e => (.error e, [i])

/-- The generated `try_new`. -/
def runTryNew [Inhabited V] (field_info : List StructFieldInfo)
    (args : List (TryCtorArg V E)) : Except E (List V) × List Nat :=
  tryGo 0 (field_info.zip args) []

/-- The `Heads { ... }` value built by the error branch of
`try_new_or_recover` (source lines 484-489 and 601-607): `head_field_names`
is the list of *all* fields whose `borrows` list is empty, and their values
are the plain arguments, which are function parameters and hence bound at
entry.  (A head field always receives a plain argument; the `builder` branch
below is unreachable for head fields and yields no entry.) -/
def headsOf (field_info : List StructFieldInfo) (args : List (TryCtorArg V E)) :
    List (String × V) :=
  (field_info.zip args).filterMap fun p =>
    if p.1.borrows.isEmpty then
      match p.2 with
      | .plain v => some (p.1.name, v)
      | .builder _ => none
    else none

/-- The body of the generated `try_new_or_recover` (source lines 601-607,
636-639): like `try_new`, but a failing callback returns the error paired
with the `Heads` value. -/
def tryRecGo [Inhabited V] (heads : List (String × V)) :
    Nat → List (StructFieldInfo × TryCtorArg V E) → List V →
      Except (E × List (String × V)) (List V) × List Nat
  | _, [], env => (.ok env, [])
  | i, (f, a) :: rest, env =>
    match a with
    | .plain v => tryRecGo heads (i + 1) rest (env ++ [v])
    | .builder g =>
      match g (depValues f env) with
      | .ok v =>
        let r := tryRecGo heads (i + 1) rest (env ++ [v])
        (r.1, i :: r.2)
      | .error e => (.error (e, heads), [i])

/-- The generated `try_new_or_recover`. -/
def runTryNewOrRecover [Inhabited V] (field_info : List StructFieldInfo)
    (args : List (TryCtorArg V E)) :
    Except (E × List (String × V)) (List V) × List Nat :=
  tryRecGo (headsOf field_info args) 0 (field_info.zip args) []

/-- Lift a plain constructor argument to an always-succeeding fallible one
(the "corresponding non-result callback"). -/
def liftArg : CtorArg V → TryCtorArg V E
  | .plain v => .plain v
  | .builder g => .builder (fun vs => .ok (g vs))

/-! ## Builder delegation (source: `build`, `try_build`,
`try_build_or_recover`)

A builder struct stores one value per constructor argument, in the same
order; `build(self)` forwards them positionally to the constructor. -/

/-- Semantics of `builder.build()`: forward the stored arguments positionally
to `new` (source lines 467-471). -/
def builderBuild [Inhabited V] (field_info : List StructFieldInfo)
    (stored : List (CtorArg V)) : List V × List Nat :=
  runNew field_info stored

/-- Semantics of `try_builder.try_build()` (source lines 650-654). -/
def tryBuilderTryBuild [Inhabited V] (field_info : List StructFieldInfo)
    (stored : List (TryCtorArg V E)) : Except E (List V) × List Nat :=
  runTryNew field_info stored

/-- Semantics of `try_builder.try_build_or_recover()` (source lines
656-660). -/
def tryBuilderTryBuildOrRecover [Inhabited V] (field_info : List StructFieldInfo)
    (stored : List (TryCtorArg V E)) :
    Except (E × List (String × V)) (List V) × List Nat :=
  runTryNewOrRecover field_info stored

/-! ## Heads extraction (source: `make_into_heads`) -/

/-- The statements emitted by `make_into_heads`, one per field in storage
order (the reverse of declaration order): `drop(self.f);` for a field with a
non-empty borrow list, `let f = self.f;` for a head field. -/
inductive HeadsOp where
  | dropOp (name : String)
  | bindOp (name : String)
deriving DecidableEq, Repr

/-- The emitted body of `into_heads` (source lines 845-861). -/
def intoHeadsCode (field_info : List StructFieldInfo) : List HeadsOp :=
  field_info.reverse.map fun f =>
    if f.borrows.length > 0 then .dropOp f.name else .bindOp f.name

/-- Semantics of the generated `into_heads` (source lines 875-882): walk the
fields in storage order, drop each field with a non-empty borrow list, keep
each head field's stored value, and return the kept fields as the `Heads`
aggregate. -/
def into_heads (field_info : List StructFieldInfo) (vals : List V) :
    List (String × V) :=
  (field_info.zip vals).reverse.filterMap fun p =>
    if p.1.borrows.length > 0 then none else some (p.1.name, p.2)

/-! ## Aggregate views (source: `make_use_all_function`) -/

/-- The type of one field of a generated view struct: a shared reference, a
mutable reference, or a shared reference to the dereferenced contents. -/
inductive ViewFieldTy where
  | refTo (typ : String)
  | mutRefTo (typ : String)
  | refToDerefTarget (typ : String)
deriving DecidableEq, Repr

/-- The fields of the generated `BorrowedFields` struct (source lines
741-762): in storage order, a `Tail` field contributes `name:
&'outer_borrow T`, a `Borrowed` field contributes `name_contents:
&'outer_borrow <T as Deref>::Target`, and a `BorrowedMut` field contributes
nothing. -/
def borrowedFieldsSpec (field_info : List StructFieldInfo) :
    List (String × ViewFieldTy) :=
  field_info.reverse.filterMap fun f =>
    match f.field_type with
    | .Tail => some (f.name, .refTo f.typ)
    | .Borrowed => some (f.name ++ "_contents", .refToDerefTarget f.typ)
    | .BorrowedMut => none

/-- The fields of the generated `BorrowedMutFields` struct: only `Tail`
fields contribute, as `name: &'outer_borrow mut T`. -/
def borrowedMutFieldsSpec (field_info : List StructFieldInfo) :
    List (String × ViewFieldTy) :=
  field_info.reverse.filterMap fun f =>
    match f.field_type with
    | .Tail => some (f.name, .mutRefTo f.typ)
    | _ => none

/-- The value delivered to the callback of `use_all_fields`: per field in
storage order, a `Tail` field's stored value under its name, a `Borrowed`
field's dereferenced contents (modelled as its stored value) under
`name_contents`, nothing for a `BorrowedMut` field. -/
def viewValues (field_info : List StructFieldInfo) (vals : List V) :
    List (String × V) :=
  (field_info.zip vals).reverse.filterMap fun p =>
    match p.1.field_type with
    | .Tail => some (p.1.name, p.2)
    | .Borrowed => some (p.1.name ++ "_contents", p.2)
    | .BorrowedMut => none

/-- The value delivered to the callback of `use_all_fields_mut`: only `Tail`
fields appear. -/
def mutViewValues (field_info : List StructFieldInfo) (vals : List V) :
    List (String × V) :=
  (field_info.zip vals).reverse.filterMap fun p =>
    match p.1.field_type with
    | .Tail => some (p.1.name, p.2)
    | _ => none

/-- The generated `use_all_fields` (source lines 815-824): the view is built
and handed to the scoped callback; the callback's result is returned. -/
def use_all_fields {R : Type} (field_info : List StructFieldInfo)
    (vals : List V) (user : List (String × V) → R) : R :=
  user (viewValues field_info vals)

/-- The generated `use_all_fields_mut` (source lines 825-833). -/
def use_all_fields_mut {R : Type} (field_info : List StructFieldInfo)
    (vals : List V) (user : List (String × V) → R) : R :=
  user (mutViewValues field_info vals)

/-! ## Per-field accessors (source: `make_use_functions`) -/

/-- The access capability of one generated scoped accessor. -/
inductive AccessorKind where
  | byRef
  | byMutRef
  | contentsRef
deriving DecidableEq, Repr

/-- One generated scoped accessor: method name, the field it serves, and the
kind of reference its callback receives. -/
structure AccessorSpec where
  methodName : String
  fieldName : String
  kind : AccessorKind
deriving DecidableEq, Repr

/-- The accessors `make_use_functions` generates for one field (source lines
666-733): a `Tail` field gets `use_<f>` (shared reference) and `use_<f>_mut`
(mutable reference); a `Borrowed` field gets `use_<f>_contents` (shared
reference to the dereferenced contents only); a `BorrowedMut` field gets
nothing. -/
def accessorsFor (f : StructFieldInfo) : List AccessorSpec :=
  match f.field_type with
  | .Tail =>
    [⟨"use_" ++ f.name, f.name, .byRef⟩,
     ⟨"use_" ++ f.name ++ "_mut", f.name, .byMutRef⟩]
  | .Borrowed => [⟨"use_" ++ f.name ++ "_contents", f.name, .contentsRef⟩]
  | .BorrowedMut => []

/-- Source: `make_use_functions` — concatenation of the per-field accessor
lists in declaration order. -/
def make_use_functions (field_info : List StructFieldInfo) :
    List AccessorSpec :=
  field_info.flatMap accessorsFor

/-- Semantics shared by every generated scoped accessor: the reference (here,
the stored value) is handed to the callback, whose result is returned
(source: `user(&self.field_name)` and variants). -/
def runAccessor {R : Type} (v : V) (user : V → R) : R :=
  user v

/-! ## Statement vocabulary

Predicates and derived quantities used to state the verified properties;
these are not translations of source code but the vocabulary the theorems
below are phrased in. -/

/-- Every borrow request of every field targets a field declared strictly
before it (the forward-only invariant). -/
def ForwardOnly (fi : List StructFieldInfo) : Prop :=
  ∀ (i : Nat) (f : StructFieldInfo), fi[i]? = some f →
    ∀ b ∈ f.borrows, b.index < i

/-- The mutability flags of the requests in `reqs` that target field index
`j`, in processing order. -/
def flagsTo (reqs : List BorrowRequest) (j : Nat) : List Bool :=
  (reqs.filter fun b => b.index == j).map BorrowRequest.mutable

/-- All resolved borrow requests of a catalogue, in processing order
(requester declaration order, and request order within one requester). -/
def allReqs (fi : List StructFieldInfo) : List BorrowRequest :=
  fi.flatMap StructFieldInfo.borrows

/-- The mutability flags of all requests of the catalogue that target field
index `j`, in processing order. -/
def requestFlagsTo (fi : List StructFieldInfo) (j : Nat) : List Bool :=
  flagsTo (allReqs fi) j

/-- The relation between a field's role and the mutability flags of the
requests it has received so far: `Tail` means no requests, `Borrowed` means
at least one request and none mutable, `BorrowedMut` means exactly one
request, a mutable one. -/
def roleMatches : FieldType → List Bool → Prop
  | .Tail, l => l = []
  | .Borrowed, l => l ≠ [] ∧ true ∉ l
  | .BorrowedMut, l => l = [true]

/-- Invariant threaded through validation: every request recorded so far
targets an existing field, and every field's role matches the requests it
has received. -/
def Classified (fi : List StructFieldInfo) (reqs : List BorrowRequest) : Prop :=
  (∀ b ∈ reqs, b.index < fi.length) ∧
  ∀ (j : Nat) (f : StructFieldInfo), fi[j]? = some f →
    roleMatches f.field_type (flagsTo reqs j)

/-! ## Concrete inputs used by witnesses and counterexamples -/

/-- A valid three-field input: `a` is immutably borrowed by `b`, and `c` is
an independent head declared after `b`. -/
def exRaws : List RawField :=
  [⟨"a", "Box<i32>", []⟩,
   ⟨"b", "String", [⟨"a", false⟩]⟩,
   ⟨"c", "u8", []⟩]

/-- The catalogue produced from `exRaws`. -/
def exFields : List StructFieldInfo :=
  [⟨"a", "Box<i32>", .Borrowed, []⟩,
   ⟨"b", "String", .Tail, [⟨0, false⟩]⟩,
   ⟨"c", "u8", .Tail, []⟩]

/-- Fallible-constructor arguments for `exFields` where the callback of `b`
(declaration index 1) fails with error `0`. -/
def exTryArgs : List (TryCtorArg Nat Nat) :=
  [.plain 10, .builder (fun _ => .error 0), .plain 30]

/-- An input whose second field names an undeclared identifier. -/
def exRawsUnknown : List RawField :=
  [⟨"a", "Box<i32>", []⟩,
   ⟨"b", "String", [⟨"q", false⟩]⟩]

/-- An input that borrows `a` mutably after borrowing it immutably. -/
def exRawsMutAfterImm : List RawField :=
  [⟨"a", "Box<i32>", []⟩,
   ⟨"b", "String", [⟨"a", false⟩]⟩,
   ⟨"c", "u8", [⟨"a", true⟩]⟩]

/-- An input that borrows `a` mutably twice. -/
def exRawsDoubleMut : List RawField :=
  [⟨"a", "Box<i32>", []⟩,
   ⟨"b", "String", [⟨"a", true⟩]⟩,
   ⟨"c", "u8", [⟨"a", true⟩]⟩]

/-- An input that borrows `a` immutably after borrowing it mutably. -/
def exRawsImmAfterMut : List RawField :=
  [⟨"a", "Box<i32>", []⟩,
   ⟨"b", "String", [⟨"a", true⟩]⟩,
   ⟨"c", "u8", [⟨"a", false⟩]⟩]

/-- A valid two-field input with a mutable borrow, giving `a` the role
`BorrowedMut`. -/
def exRawsMut : List RawField :=
  [⟨"a", "Box<i32>", []⟩,
   ⟨"b", "String", [⟨"a", true⟩]⟩]

/-- The catalogue produced from `exRawsMut`. -/
def exFieldsMut : List StructFieldInfo :=
  [⟨"a", "Box<i32>", .BorrowedMut, []⟩,
   ⟨"b", "String", .Tail, [⟨0, true⟩]⟩]

/-- The catalogue produced from the first two fields of `exRaws` (and of
`exRawsMutAfterImm`). -/
def exFieldsAB : List StructFieldInfo :=
  [⟨"a", "Box<i32>", .Borrowed, []⟩,
   ⟨"b", "String", .Tail, [⟨0, false⟩]⟩]

example : collectFields exRaws = .ok exFields := by rfl
example : create_actual_struct exRaws = .ok (exFields, exFields.reverse) := by rfl
example : collectFields exRawsUnknown = .error (.unknownIdentifier "q") := by rfl
example : collectFields exRawsMutAfterImm = .error (.mutAfterImm "a") := by rfl
example : collectFields exRawsDoubleMut = .error (.doubleMut "a") := by rfl
example : collectFields exRawsImmAfterMut = .error (.immAfterMut "a") := by rfl
example : collectFields exRawsMut = .ok exFieldsMut := by rfl
example :
    runTryNewOrRecover exFields exTryArgs =
      (.error (0, [("a", 10), ("c", 30)]), [1]) := by rfl
example : runTryNew exFields exTryArgs = (.error 0, [1]) := by rfl
example : into_heads exFields [10, 20, 30] = [("c", 30), ("a", 10)] := by rfl

/-! ## Lemmas about the validator -/

theorem setRole_map_name (l : List StructFieldInfo) (i : Nat) (r : FieldType) :
    (setRole l i r).map StructFieldInfo.name = l.map StructFieldInfo.name := by
  induction l generalizing i with
  | nil => rfl
  | cons f fs ih =>
    cases i with
    | zero => simp [setRole]
    | succ n => simp [setRole, ih]

theorem setRole_map_typ (l : List StructFieldInfo) (i : Nat) (r : FieldType) :
    (setRole l i r).map StructFieldInfo.typ = l.map StructFieldInfo.typ := by
  induction l generalizing i with
  | nil => rfl
  | cons f fs ih =>
    cases i with
    | zero => simp [setRole]
    | succ n => simp [setRole, ih]

theorem setRole_map_borrows (l : List StructFieldInfo) (i : Nat) (r : FieldType) :
    (setRole l i r).map StructFieldInfo.borrows =
      l.map StructFieldInfo.borrows := by
  induction l generalizing i with
  | nil => rfl
  | cons f fs ih =>
    cases i with
    | zero => simp [setRole]
    | succ n => simp [setRole, ih]

theorem setRole_length (l : List StructFieldInfo) (i : Nat) (r : FieldType) :
    (setRole l i r).length = l.length := by
  induction l generalizing i with
  | nil => rfl
  | cons f fs ih =>
    cases i with
    | zero => simp [setRole]
    | succ n => simp [setRole, ih]

theorem setRole_getElem? (l : List StructFieldInfo) (i j : Nat) (r : FieldType) :
    (setRole l i r)[j]? =
      if j = i then (l[j]?).map (fun f => { f with field_type := r })
      else l[j]? := by
  induction l generalizing i j with
  | nil => simp [setRole]
  | cons f fs ih =>
    cases i with
    | zero =>
      cases j with
      | zero => simp [setRole]
      | succ m => simp [setRole]
    | succ n =>
      cases j with
      | zero => simp [setRole]
      | succ m => simpa [setRole] using ih n m

theorem findField_some {l : List StructFieldInfo} {s : String} {i : Nat}
    {fld : StructFieldInfo} (h : findField l s = some (i, fld)) :
    i < l.length ∧ l[i]? = some fld ∧ fld.name = s := by
  induction l generalizing i with
  | nil => simp [findField] at h
  | cons f fs ih =>
    simp only [findField] at h
    split at h
    · next hc =>
      simp only [Option.some.injEq, Prod.mk.injEq] at h
      obtain ⟨rfl, rfl⟩ := h
      exact ⟨by simp, by simp, eq_of_beq hc⟩
    · next hc =>
      rw [Option.map_eq_some'] at h
      obtain ⟨⟨i0, fld0⟩, hfind, heq⟩ := h
      simp only [Prod.mk.injEq] at heq
      obtain ⟨rfl, rfl⟩ := heq
      obtain ⟨h1, h2, h3⟩ := ih hfind
      exact ⟨by simpa using h1, by simpa using h2, h3⟩

theorem findField_eq_none {l : List StructFieldInfo} {s : String} :
    findField l s = none ↔ ∀ f ∈ l, f.name ≠ s := by
  induction l with
  | nil => simp [findField]
  | cons f fs ih =>
    simp only [findField]
    cases hfs : (f.name == s) with
    | true =>
      have : f.name = s := eq_of_beq hfs
      simp [this]
    | false =>
      have hne : f.name ≠ s := by simpa using hfs
      simp [hne, Option.map_eq_none', ih]

theorem resolveBorrow_ok {fi fi' : List StructFieldInfo} {t : String} {m : Bool}
    {br : BorrowRequest} (h : resolveBorrow fi t m = .ok (fi', br)) :
    fi'.map StructFieldInfo.name = fi.map StructFieldInfo.name ∧
    fi'.map StructFieldInfo.typ = fi.map StructFieldInfo.typ ∧
    fi'.map StructFieldInfo.borrows = fi.map StructFieldInfo.borrows ∧
    fi'.length = fi.length ∧
    br.index < fi.length ∧ br.mutable = m := by
  unfold resolveBorrow at h
  cases hff : findField fi t with
  | none => simp [hff] at h
  | some p =>
    obtain ⟨i, fld⟩ := p
    simp only [hff] at h
    have hi := (findField_some hff).1
    split at h
    · next hm =>
      split at h
      · cases h
      · split at h
        · cases h
        · simp only [Except.ok.injEq, Prod.mk.injEq] at h
          obtain ⟨rfl, rfl⟩ := h
          exact ⟨setRole_map_name .., setRole_map_typ .., setRole_map_borrows ..,
            setRole_length .., hi, by simp [hm]⟩
    · next hm =>
      split at h
      · cases h
      · simp only [Except.ok.injEq, Prod.mk.injEq] at h
        obtain ⟨rfl, rfl⟩ := h
        refine ⟨setRole_map_name .., setRole_map_typ .., setRole_map_borrows ..,
          setRole_length .., hi, ?_⟩
        simp only [Bool.not_eq_true] at hm
        exact hm.symm

theorem handle_ok {fi fi' : List StructFieldInfo} {raw : List RawBorrow}
    {brs : List BorrowRequest}
    (h : handle_borrows_attr fi raw = .ok (fi', brs)) :
    fi'.map StructFieldInfo.name = fi.map StructFieldInfo.name ∧
    fi'.map StructFieldInfo.typ = fi.map StructFieldInfo.typ ∧
    fi'.map StructFieldInfo.borrows = fi.map StructFieldInfo.borrows ∧
    fi'.length = fi.length ∧
    ∀ br ∈ brs, br.index < fi.length := by
  induction raw generalizing fi brs with
  | nil =>
    unfold handle_borrows_attr at h
    simp only [Except.ok.injEq, Prod.mk.injEq] at h
    obtain ⟨rfl, rfl⟩ := h
    simp
  | cons rb rest ih =>
    unfold handle_borrows_attr at h
    cases hrb : resolveBorrow fi rb.target rb.mutable with
    | error e => simp [hrb] at h
    | ok p =>
      obtain ⟨fi1, br⟩ := p
      simp only [hrb] at h
      cases hh : handle_borrows_attr fi1 rest with
      | error e => simp [hh] at h
      | ok q =>
        obtain ⟨fi2, brs2⟩ := q
        simp only [hh, Except.ok.injEq, Prod.mk.injEq] at h
        obtain ⟨rfl, rfl⟩ := h
        obtain ⟨r1, r2, r3, r4, r5, _⟩ := resolveBorrow_ok hrb
        obtain ⟨i1, i2, i3, i4, i5⟩ := ih hh
        refine ⟨i1.trans r1, i2.trans r2, i3.trans r3, i4.trans r4, ?_⟩
        intro b hb
        rcases List.mem_cons.mp hb with rfl | hb2
        · exact r5
        · exact r4 ▸ i5 b hb2

theorem handle_error_after {fi fi1 : List StructFieldInfo}
    {good : List RawBorrow} {brs1 : List BorrowRequest} {rb : RawBorrow}
    {rest : List RawBorrow} {err : GenError}
    (hgood : handle_borrows_attr fi good = .ok (fi1, brs1))
    (hbad : resolveBorrow fi1 rb.target rb.mutable = .error err) :
    handle_borrows_attr fi (good ++ rb :: rest) = .error err := by
  induction good generalizing fi brs1 with
  | nil =>
    unfold handle_borrows_attr at hgood
    simp only [Except.ok.injEq, Prod.mk.injEq] at hgood
    obtain ⟨rfl, rfl⟩ := hgood
    simp only [List.nil_append]
    unfold handle_borrows_attr
    simp [hbad]
  | cons g gs ih =>
    unfold handle_borrows_attr at hgood
    cases hr : resolveBorrow fi g.target g.mutable with
    | error e => simp [hr] at hgood
    | ok p =>
      obtain ⟨fiA, br⟩ := p
      simp only [hr] at hgood
      cases hh : handle_borrows_attr fiA gs with
      | error e => simp [hh] at hgood
      | ok q =>
        obtain ⟨fi2, brs2⟩ := q
        simp only [hh, Except.ok.injEq, Prod.mk.injEq] at hgood
        obtain ⟨rfl, rfl⟩ := hgood
        simp only [List.cons_append]
        unfold handle_borrows_attr
        simp only [hr]
        rw [ih hh]

theorem collectFieldsAux_ok {acc fi : List StructFieldInfo}
    {raws : List RawField} (h : collectFieldsAux acc raws = .ok fi) :
    fi.map StructFieldInfo.name =
      acc.map StructFieldInfo.name ++ raws.map RawField.name ∧
    fi.map StructFieldInfo.typ =
      acc.map StructFieldInfo.typ ++ raws.map RawField.typ ∧
    fi.length = acc.length + raws.length := by
  induction raws generalizing acc with
  | nil =>
    unfold collectFieldsAux at h
    simp only [Except.ok.injEq] at h
    subst h
    simp
  | cons rf rest ih =>
    unfold collectFieldsAux at h
    cases hh : handle_borrows_attr acc rf.rawBorrows with
    | error e => simp [hh] at h
    | ok p =>
      obtain ⟨acc2, brs⟩ := p
      simp only [hh] at h
      obtain ⟨j1, j2, j3⟩ := ih h
      obtain ⟨k1, k2, _, k4, _⟩ := handle_ok hh
      simp only [List.map_append, List.length_append, List.map_cons,
        List.map_nil, List.length_cons, List.length_nil] at j1 j2 j3
      refine ⟨?_, ?_, ?_⟩
      · rw [j1, k1]; simp
      · rw [j2, k2]; simp
      · rw [j3, k4]; simp; omega

theorem collectFieldsAux_ok_extend {acc fiK : List StructFieldInfo}
    {l1 l2 : List RawField} (h1 : collectFieldsAux acc l1 = .ok fiK) :
    collectFieldsAux acc (l1 ++ l2) = collectFieldsAux fiK l2 := by
  induction l1 generalizing acc with
  | nil =>
    unfold collectFieldsAux at h1
    simp only [Except.ok.injEq] at h1
    subst h1
    simp
  | cons r0 rs ih =>
    unfold collectFieldsAux at h1
    cases hh : handle_borrows_attr acc r0.rawBorrows with
    | error e => simp [hh] at h1
    | ok p =>
      obtain ⟨accA, brsA⟩ := p
      simp only [hh] at h1
      have step : collectFieldsAux acc ((r0 :: rs) ++ l2) =
          collectFieldsAux (accA ++ [⟨r0.name, r0.typ, .Tail, brsA⟩])
            (rs ++ l2) := by
        simp only [List.cons_append]
        conv_lhs => unfold collectFieldsAux
        simp [hh]
      rw [step]
      exact ih h1

theorem collect_error_at {raws : List RawField} {k : Nat}
    {fiK fiK2 : List StructFieldInfo} {rf : RawField}
    {pre rest : List RawBorrow} {rb : RawBorrow}
    {brs : List BorrowRequest} {err : GenError}
    (h1 : collectFields (raws.take k) = .ok fiK)
    (h2 : raws[k]? = some rf)
    (h3 : rf.rawBorrows = pre ++ rb :: rest)
    (h4 : handle_borrows_attr fiK pre = .ok (fiK2, brs))
    (h5 : resolveBorrow fiK2 rb.target rb.mutable = .error err) :
    collectFields raws = .error err := by
  have hk : k < raws.length := by
    by_contra hc
    rw [List.getElem?_eq_none (by omega)] at h2
    cases h2
  have hdrop : raws.drop k = rf :: raws.drop (k + 1) := by
    rw [List.drop_eq_getElem_cons hk]
    rw [List.getElem?_eq_getElem hk] at h2
    simp only [Option.some.injEq] at h2
    rw [h2]
  have hsplit : raws = raws.take k ++ rf :: raws.drop (k + 1) := by
    conv_lhs => rw [← List.take_append_drop k raws]
    rw [hdrop]
  have hbad : handle_borrows_attr fiK rf.rawBorrows = .error err := by
    rw [h3]; exact handle_error_after h4 h5
  rw [hsplit]
  unfold collectFields
  rw [collectFieldsAux_ok_extend h1]
  unfold collectFieldsAux
  simp [hbad]

/-! ## The forward-only invariant -/

theorem forwardOnly_of_map_borrows {fi fi' : List StructFieldInfo}
    (hmap : fi'.map StructFieldInfo.borrows = fi.map StructFieldInfo.borrows)
    (hf : ForwardOnly fi) : ForwardOnly fi' := by
  intro i f hif b hb
  have h1 : (fi'.map StructFieldInfo.borrows)[i]? = some f.borrows := by
    rw [List.getElem?_map, hif]
    rfl
  rw [hmap, List.getElem?_map] at h1
  cases hgf : fi[i]? with
  | none => rw [hgf] at h1; cases h1
  | some g =>
    rw [hgf] at h1
    simp only [Option.map_some', Option.some.injEq] at h1
    exact hf i g hgf b (by rw [h1]; exact hb)

theorem forwardOnly_append {fi : List StructFieldInfo} (hf : ForwardOnly fi)
    (nm ty : String) (brs : List BorrowRequest)
    (hb : ∀ b ∈ brs, b.index < fi.length) :
    ForwardOnly (fi ++ [⟨nm, ty, .Tail, brs⟩]) := by
  intro i f hif b hbm
  by_cases hi : i < fi.length
  · rw [List.getElem?_append_left hi] at hif
    exact hf i f hif b hbm
  · have hi2 : i < fi.length + 1 := by
      by_contra hc
      rw [List.getElem?_eq_none (by simp; omega)] at hif
      cases hif
    have hieq : i = fi.length := by omega
    subst hieq
    rw [List.getElem?_concat_length] at hif
    cases hif
    exact hb b hbm

theorem forwardOnly_collect {acc fi : List StructFieldInfo}
    {raws : List RawField} (hacc : ForwardOnly acc)
    (h : collectFieldsAux acc raws = .ok fi) : ForwardOnly fi := by
  induction raws generalizing acc with
  | nil =>
    unfold collectFieldsAux at h
    simp only [Except.ok.injEq] at h
    subst h
    exact hacc
  | cons rf rest ih =>
    unfold collectFieldsAux at h
    cases hh : handle_borrows_attr acc rf.rawBorrows with
    | error e => simp [hh] at h
    | ok p =>
      obtain ⟨acc2, brs⟩ := p
      simp only [hh] at h
      obtain ⟨_, _, h3, h4, h5⟩ := handle_ok hh
      refine ih ?_ h
      refine forwardOnly_append (forwardOnly_of_map_borrows h3 hacc) _ _ _ ?_
      intro b hb
      rw [h4]
      exact h5 b hb

/-! ## The role invariant -/

theorem flagsTo_append (reqs : List BorrowRequest) (br : BorrowRequest)
    (j : Nat) :
    flagsTo (reqs ++ [br]) j =
      flagsTo reqs j ++ (if br.index = j then [br.mutable] else []) := by
  unfold flagsTo
  rw [List.filter_append, List.map_append]
  congr 1
  by_cases hbj : br.index = j
  · have hb : (br.index == j) = true := by simp [hbj]
    simp [List.filter, hb, hbj]
  · have hb : (br.index == j) = false := by simp [hbj]
    simp [List.filter, hb, hbj]

theorem flagsTo_high {reqs : List BorrowRequest} {n : Nat}
    (h : ∀ b ∈ reqs, b.index < n) {j : Nat} (hj : n ≤ j) :
    flagsTo reqs j = [] := by
  unfold flagsTo
  rw [List.filter_eq_nil_iff.mpr, List.map_nil]
  intro b hb
  have := h b hb
  simp only [beq_iff_eq]
  omega

theorem classified_step {fi fi' : List StructFieldInfo}
    {reqs : List BorrowRequest} {t : String} {m : Bool} {br : BorrowRequest}
    (hc : Classified fi reqs) (h : resolveBorrow fi t m = .ok (fi', br)) :
    Classified fi' (reqs ++ [br]) := by
  obtain ⟨hidx, hrole⟩ := hc
  unfold resolveBorrow at h
  cases hff : findField fi t with
  | none => simp [hff] at h
  | some p =>
    obtain ⟨i, fld⟩ := p
    simp only [hff] at h
    obtain ⟨hi, hgf, _⟩ := findField_some hff
    split at h
    · next hm =>
      split at h
      · cases h
      · next hc1 =>
        split at h
        · cases h
        · next hc2 =>
          simp only [Except.ok.injEq, Prod.mk.injEq] at h
          obtain ⟨rfl, rfl⟩ := h
          have hfldT : fld.field_type = .Tail := by
            cases hft : fld.field_type
            · rfl
            · rw [hft] at hc1; simp at hc1
            · rw [hft] at hc2; simp at hc2
          constructor
          · intro b hb
            rw [setRole_length]
            rcases List.mem_append.mp hb with hb1 | hb2
            · exact hidx b hb1
            · simp only [List.mem_singleton] at hb2
              subst hb2
              exact hi
          · intro j f hjf
            rw [setRole_getElem?] at hjf
            rw [flagsTo_append]
            by_cases hji : j = i
            · subst hji
              rw [if_pos rfl, hgf] at hjf
              simp only [Option.map_some', Option.some.injEq] at hjf
              subst hjf
              have hr := hrole j fld hgf
              rw [hfldT] at hr
              simp only [roleMatches] at hr
              simp only [roleMatches, hr]
              simp
            · rw [if_neg hji] at hjf
              have hr := hrole j f hjf
              have hij : ¬ i = j := fun hh2 => hji hh2.symm
              rw [if_neg hij, List.append_nil]
              exact hr
    · next hm =>
      split at h
      · cases h
      · next hc3 =>
        simp only [Except.ok.injEq, Prod.mk.injEq] at h
        obtain ⟨rfl, rfl⟩ := h
        constructor
        · intro b hb
          rw [setRole_length]
          rcases List.mem_append.mp hb with hb1 | hb2
          · exact hidx b hb1
          · simp only [List.mem_singleton] at hb2
            subst hb2
            exact hi
        · intro j f hjf
          rw [setRole_getElem?] at hjf
          rw [flagsTo_append]
          by_cases hji : j = i
          · subst hji
            rw [if_pos rfl, hgf] at hjf
            simp only [Option.map_some', Option.some.injEq] at hjf
            subst hjf
            have hr := hrole j fld hgf
            simp only [roleMatches]
            cases hft : fld.field_type
            · rw [hft] at hr
              simp only [roleMatches] at hr
              rw [hr]
              simp
            · rw [hft] at hr
              simp only [roleMatches] at hr
              obtain ⟨hne, hnt⟩ := hr
              constructor
              · simp
              · intro hx
                rcases List.mem_append.mp hx with h1 | h1
                · exact hnt h1
                · simp at h1
            · rw [hft] at hc3; simp at hc3
          · rw [if_neg hji] at hjf
            have hr := hrole j f hjf
            have hij : ¬ i = j := fun hh2 => hji hh2.symm
            rw [if_neg hij, List.append_nil]
            exact hr

theorem classified_handle {fi fi' : List StructFieldInfo}
    {reqs : List BorrowRequest} {raw : List RawBorrow}
    {brs : List BorrowRequest} (hc : Classified fi reqs)
    (h : handle_borrows_attr fi raw = .ok (fi', brs)) :
    Classified fi' (reqs ++ brs) := by
  induction raw generalizing fi reqs brs with
  | nil =>
    unfold handle_borrows_attr at h
    simp only [Except.ok.injEq, Prod.mk.injEq] at h
    obtain ⟨rfl, rfl⟩ := h
    simpa using hc
  | cons rb rest ih =>
    unfold handle_borrows_attr at h
    cases hrb : resolveBorrow fi rb.target rb.mutable with
    | error e => simp [hrb] at h
    | ok p =>
      obtain ⟨fi1, br⟩ := p
      simp only [hrb] at h
      cases hh : handle_borrows_attr fi1 rest with
      | error e => simp [hh] at h
      | ok q =>
        obtain ⟨fi2, brs2⟩ := q
        simp only [hh, Except.ok.injEq, Prod.mk.injEq] at h
        obtain ⟨rfl, rfl⟩ := h
        have := ih (classified_step hc hrb) hh
        simpa using this

theorem allReqs_append_one (fi : List StructFieldInfo) (f : StructFieldInfo) :
    allReqs (fi ++ [f]) = allReqs fi ++ f.borrows := by
  simp [allReqs]

theorem allReqs_congr {fi fi' : List StructFieldInfo}
    (h : fi'.map StructFieldInfo.borrows = fi.map StructFieldInfo.borrows) :
    allReqs fi' = allReqs fi := by
  unfold allReqs
  induction fi generalizing fi' with
  | nil =>
    simp only [List.map_nil, List.map_eq_nil_iff] at h
    subst h
    rfl
  | cons g gs ih =>
    cases fi' with
    | nil => simp at h
    | cons g' gs' =>
      simp only [List.map_cons, List.cons.injEq] at h
      simp only [List.flatMap_cons, h.1, ih h.2]

theorem classified_append_field {fi : List StructFieldInfo}
    {reqs : List BorrowRequest} (hc : Classified fi reqs)
    (nm ty : String) (brs : List BorrowRequest) :
    Classified (fi ++ [⟨nm, ty, .Tail, brs⟩]) reqs := by
  obtain ⟨hidx, hrole⟩ := hc
  constructor
  · intro b hb
    rw [List.length_append]
    have := hidx b hb
    simp only [List.length_singleton]
    omega
  · intro j f hjf
    by_cases hj : j < fi.length
    · rw [List.getElem?_append_left hj] at hjf
      exact hrole j f hjf
    · have hj2 : j < fi.length + 1 := by
        by_contra hcn
        rw [List.getElem?_eq_none (by simp; omega)] at hjf
        cases hjf
      have hjeq : j = fi.length := by omega
      subst hjeq
      rw [List.getElem?_concat_length] at hjf
      cases hjf
      simp only [roleMatches]
      exact flagsTo_high hidx (le_refl _)

theorem classified_collect {acc fi : List StructFieldInfo}
    {raws : List RawField} (hacc : Classified acc (allReqs acc))
    (h : collectFieldsAux acc raws = .ok fi) :
    Classified fi (allReqs fi) := by
  induction raws generalizing acc with
  | nil =>
    unfold collectFieldsAux at h
    simp only [Except.ok.injEq] at h
    subst h
    exact hacc
  | cons rf rest ih =>
    unfold collectFieldsAux at h
    cases hh : handle_borrows_attr acc rf.rawBorrows with
    | error e => simp [hh] at h
    | ok p =>
      obtain ⟨acc2, brs⟩ := p
      simp only [hh] at h
      refine ih ?_ h
      have h1 := classified_handle hacc hh
      have h2 := classified_append_field h1 rf.name rf.typ brs
      have h3 : allReqs (acc2 ++ [⟨rf.name, rf.typ, .Tail, brs⟩]) =
          allReqs acc ++ brs := by
        rw [allReqs_append_one, allReqs_congr (handle_ok hh).2.2.1]
      rw [h3]
      exact h2

theorem classified_flags {fi : List StructFieldInfo}
    (hc : Classified fi (allReqs fi)) (j : Nat) :
    (requestFlagsTo fi j).count true ≤ 1 ∧
    ¬(true ∈ requestFlagsTo fi j ∧ false ∈ requestFlagsTo fi j) := by
  obtain ⟨hidx, hrole⟩ := hc
  unfold requestFlagsTo
  by_cases hj : j < fi.length
  · obtain ⟨f, hf⟩ : ∃ f, fi[j]? = some f := by
      rw [List.getElem?_eq_getElem hj]
      exact ⟨_, rfl⟩
    have hr := hrole j f hf
    cases hft : f.field_type <;> rw [hft] at hr <;>
      simp only [roleMatches] at hr
    · rw [hr]; simp
    · obtain ⟨_, h2⟩ := hr
      constructor
      · rw [List.count_eq_zero.mpr h2]
        omega
      · rintro ⟨ht, _⟩
        exact h2 ht
    · rw [hr]; simp
  · rw [flagsTo_high hidx (by omega)]
    simp

/-! ## Lemmas about the generated constructors -/

theorem tryRecGo_eq_mapError [Inhabited V] (heads : List (String × V)) :
    ∀ (i : Nat) (L : List (StructFieldInfo × TryCtorArg V E)) (env : List V),
    tryRecGo heads i L env =
      ((tryGo i L env).1.mapError (fun e => (e, heads)), (tryGo i L env).2) := by
  intro i L env
  induction L generalizing i env with
  | nil => simp [tryRecGo, tryGo, Except.mapError]
  | cons p rest ih =>
    obtain ⟨f, a⟩ := p
    cases a with
    | plain v =>
      simp only [tryRecGo, tryGo]
      exact ih (i + 1) (env ++ [v])
    | builder g =>
      simp only [tryRecGo, tryGo]
      cases hg : g (depValues f env) with
      | ok v => simp [hg, ih]
      | error e => simp [hg, Except.mapError]

theorem tryGo_lift [Inhabited V] :
    ∀ (i : Nat) (L : List (StructFieldInfo × CtorArg V)) (env : List V),
    tryGo (E := E) i (L.map (fun p => (p.1, liftArg p.2))) env =
      (.ok (newGo i L env).1, (newGo i L env).2) := by
  intro i L env
  induction L generalizing i env with
  | nil => simp [tryGo, newGo]
  | cons p rest ih =>
    obtain ⟨f, a⟩ := p
    cases a with
    | plain v =>
      simp only [List.map_cons, tryGo, newGo, liftArg]
      exact ih (i + 1) (env ++ [v])
    | builder g =>
      have hstep :
          tryGo (E := E) i
            (((f, CtorArg.builder g) :: rest).map (fun p => (p.1, liftArg p.2)))
            env =
          ((tryGo (E := E) (i + 1) (rest.map (fun p => (p.1, liftArg p.2)))
              (env ++ [g (depValues f env)])).1,
            i :: (tryGo (E := E) (i + 1) (rest.map (fun p => (p.1, liftArg p.2)))
              (env ++ [g (depValues f env)])).2) := rfl
      rw [hstep, ih]
      simp [newGo]

theorem zip_map_lift (field_info : List StructFieldInfo)
    (args : List (CtorArg V)) :
    field_info.zip (args.map (liftArg (E := E))) =
      (field_info.zip args).map (fun p => (p.1, liftArg p.2)) := by
  rw [List.zip_map_right]
  rfl

theorem tryRecGo_error_spec [Inhabited V] {heads : List (String × V)} :
    ∀ (i : Nat) (L : List (StructFieldInfo × TryCtorArg V E)) (env : List V)
      (e : E) (hs : List (String × V)) (inv : List Nat),
    tryRecGo heads i L env = (.error (e, hs), inv) →
    hs = heads ∧
    ∃ k, k ∈ inv ∧ (∀ j ∈ inv, j ≤ k) ∧ i ≤ k ∧
      ∃ f g, L[k - i]? = some (f, .builder g) ∧
        ∃ env2, g (depValues f env2) = .error e := by
  intro i L env e hs inv h
  induction L generalizing i env inv with
  | nil => simp [tryRecGo] at h
  | cons p rest ih =>
    obtain ⟨f, a⟩ := p
    cases a with
    | plain v =>
      rw [show tryRecGo heads i ((f, TryCtorArg.plain v) :: rest) env =
          tryRecGo heads (i + 1) rest (env ++ [v]) from rfl] at h
      obtain ⟨h1, k, hk1, hk2, hk3, f2, g2, hL, henv⟩ :=
        ih (i + 1) (env ++ [v]) inv h
      refine ⟨h1, k, hk1, hk2, by omega, f2, g2, ?_, henv⟩
      have hki : k - i = (k - (i + 1)) + 1 := by omega
      rw [hki]
      simpa using hL
    | builder g =>
      cases hg : g (depValues f env) with
      | ok v =>
        have hstep : tryRecGo heads i ((f, TryCtorArg.builder g) :: rest) env =
            ((tryRecGo heads (i + 1) rest (env ++ [v])).1,
              i :: (tryRecGo heads (i + 1) rest (env ++ [v])).2) := by
          simp [tryRecGo, hg]
        rw [hstep] at h
        cases hr : tryRecGo heads (i + 1) rest (env ++ [v]) with
        | mk r1 r2 =>
          rw [hr] at h
          simp only [Prod.mk.injEq] at h
          obtain ⟨he, hinv⟩ := h
          obtain ⟨h1, k, hk1, hk2, hk3, f2, g2, hL, henv⟩ :=
            ih (i + 1) (env ++ [v]) r2 (by rw [hr, he])
          subst hinv
          refine ⟨h1, k, List.mem_cons_of_mem _ hk1, ?_, by omega, f2, g2, ?_,
            henv⟩
          · intro j hj
            rcases List.mem_cons.mp hj with rfl | hj2
            · omega
            · exact hk2 j hj2
          · have hki : k - i = (k - (i + 1)) + 1 := by omega
            rw [hki]
            simpa using hL
      | error e0 =>
        have hstep : tryRecGo heads i ((f, TryCtorArg.builder g) :: rest) env =
            (.error (e0, heads), [i]) := by
          simp [tryRecGo, hg]
        rw [hstep] at h
        simp only [Prod.mk.injEq, Except.error.injEq] at h
        obtain ⟨⟨he, hhs⟩, hinv⟩ := h
        subst he
        subst hhs
        subst hinv
        exact ⟨rfl, i, List.mem_singleton.mpr rfl,
          by intro j hj; rw [List.mem_singleton.mp hj],
          le_refl i, f, g, by simp, env, hg⟩

/-! ## Lemmas about heads extraction and views -/

theorem into_heads_eq {W : Type} (field_info : List StructFieldInfo)
    (vals : List W) :
    into_heads field_info vals =
      (((field_info.zip vals).filter fun p => p.1.borrows.isEmpty).map
        (fun p => (p.1.name, p.2))).reverse := by
  unfold into_heads
  generalize field_info.zip vals = L
  induction L with
  | nil => rfl
  | cons p rest ih =>
    rw [List.reverse_cons, List.filterMap_append, ih, List.filter_cons]
    by_cases hb : p.1.borrows = []
    · have h1 : ¬p.1.borrows.length > 0 := by simp [hb]
      have h2 : p.1.borrows.isEmpty = true := by simp [hb]
      simp [h1, h2, List.filterMap]
    · have h1 : p.1.borrows.length > 0 := by
        cases hbb : p.1.borrows
        · exact absurd hbb hb
        · simp [hbb]
      have h2 : p.1.borrows.isEmpty = false := by
        cases hbb : p.1.borrows
        · exact absurd hbb hb
        · simp [hbb]
      simp [h1, h2, List.filterMap]

theorem intoHeadsCode_getElem? {field_info : List StructFieldInfo} {i : Nat}
    {f : StructFieldInfo} (hi : i < field_info.length)
    (hf : field_info[i]? = some f) :
    (intoHeadsCode field_info)[field_info.length - 1 - i]? =
      some (if f.borrows.length > 0 then .dropOp f.name else .bindOp f.name) := by
  unfold intoHeadsCode
  rw [List.getElem?_map]
  have hrev : field_info.reverse[field_info.length - 1 - i]? =
      field_info[i]? := by
    rw [List.getElem?_reverse (by omega)]
    congr 1
    omega
  rw [hrev, hf]
  rfl

theorem borrowedFieldsSpec_mem (field_info : List StructFieldInfo)
    (nm : String) (ty : ViewFieldTy) :
    (nm, ty) ∈ borrowedFieldsSpec field_info ↔
      ∃ f ∈ field_info,
        (f.field_type = .Tail ∧ nm = f.name ∧ ty = .refTo f.typ) ∨
        (f.field_type = .Borrowed ∧ nm = f.name ++ "_contents" ∧
          ty = .refToDerefTarget f.typ) := by
  unfold borrowedFieldsSpec
  rw [List.mem_filterMap]
  constructor
  · rintro ⟨f, hf, hmatch⟩
    rw [List.mem_reverse] at hf
    refine ⟨f, hf, ?_⟩
    cases hft : f.field_type <;> rw [hft] at hmatch
    · left
      simp only [Option.some.injEq, Prod.mk.injEq] at hmatch
      exact ⟨rfl, hmatch.1.symm, hmatch.2.symm⟩
    · right
      simp only [Option.some.injEq, Prod.mk.injEq] at hmatch
      exact ⟨rfl, hmatch.1.symm, hmatch.2.symm⟩
    · cases hmatch
  · rintro ⟨f, hf, hcase⟩
    refine ⟨f, List.mem_reverse.mpr hf, ?_⟩
    rcases hcase with ⟨hft, rfl, rfl⟩ | ⟨hft, rfl, rfl⟩ <;> rw [hft]

theorem borrowedMutFieldsSpec_mem (field_info : List StructFieldInfo)
    (nm : String) (ty : ViewFieldTy) :
    (nm, ty) ∈ borrowedMutFieldsSpec field_info ↔
      ∃ f ∈ field_info,
        f.field_type = .Tail ∧ nm = f.name ∧ ty = .mutRefTo f.typ := by
  unfold borrowedMutFieldsSpec
  rw [List.mem_filterMap]
  constructor
  · rintro ⟨f, hf, hmatch⟩
    rw [List.mem_reverse] at hf
    refine ⟨f, hf, ?_⟩
    cases hft : f.field_type <;> rw [hft] at hmatch
    · simp only [Option.some.injEq, Prod.mk.injEq] at hmatch
      exact ⟨rfl, hmatch.1.symm, hmatch.2.symm⟩
    · cases hmatch
    · cases hmatch
  · rintro ⟨f, hf, hft, rfl, rfl⟩
    refine ⟨f, List.mem_reverse.mpr hf, ?_⟩
    rw [hft]

theorem make_use_functions_mem (field_info : List StructFieldInfo)
    (a : AccessorSpec) :
    a ∈ make_use_functions field_info ↔
      ∃ f ∈ field_info, a ∈ accessorsFor f := by
  unfold make_use_functions
  rw [List.mem_flatMap]

/-- The catalogue built from `exRaws` satisfies the forward-only invariant
(helper for witnesses). -/
theorem exFields_forwardOnly : ForwardOnly exFields :=
  forwardOnly_collect (fun i f hf => by simp at hf)
    (show collectFieldsAux [] exRaws = .ok exFields from rfl)

/-! ## The claims -/

/-- C2: for every input the generator accepts, the physical storage layout
consists of exactly the catalogue's field records (same name, declared type,
role and borrow list) in exactly the reverse of declaration order, and the
catalogue itself keeps the declared names and types in declaration order. -/
theorem claim_c2_storage_reversed (raws : List RawField)
    (fi storage : List StructFieldInfo)
    (h : create_actual_struct raws = .ok (fi, storage)) :
    storage = fi.reverse ∧
    fi.map StructFieldInfo.name = raws.map RawField.name ∧
    fi.map StructFieldInfo.typ = raws.map RawField.typ ∧
    fi.length = raws.length := by
  unfold create_actual_struct at h
  cases hc : collectFields raws with
  | error e => simp [hc] at h
  | ok fi0 =>
    simp only [hc] at h
    split at h
    · cases h
    · split at h
      · cases h
      · simp only [Except.ok.injEq, Prod.mk.injEq] at h
        obtain ⟨rfl, rfl⟩ := h
        obtain ⟨m1, m2, m3⟩ := collectFieldsAux_ok hc
        exact ⟨rfl, by simpa using m1, by simpa using m2, by simpa using m3⟩

/-- Witness for C2: the theorem applied to the concrete valid input
`exRaws`. -/
theorem claim_c2_witness :
    exFields.reverse = exFields.reverse ∧
    exFields.map StructFieldInfo.name = exRaws.map RawField.name ∧
    exFields.map StructFieldInfo.typ = exRaws.map RawField.typ ∧
    exFields.length = exRaws.length :=
  claim_c2_storage_reversed exRaws exFields exFields.reverse rfl

/-- C3: borrow names are resolved only among previously declared fields: on
success every resolved request targets a field with a strictly smaller
declaration index, and a request naming anything else (the requester itself,
a later field, or an undeclared name) makes generation abort with the
unknown-identifier diagnostic as soon as the request is processed. -/
theorem claim_c3_forward_only :
    (∀ (raws : List RawField) (fi : List StructFieldInfo),
      collectFields raws = .ok fi → ForwardOnly fi) ∧
    (∀ (raws : List RawField) (k : Nat) (fiK fiK2 : List StructFieldInfo)
       (rf : RawField) (pre rest : List RawBorrow) (t : String) (m : Bool)
       (brs : List BorrowRequest),
      collectFields (raws.take k) = .ok fiK →
      raws[k]? = some rf →
      rf.rawBorrows = pre ++ (⟨t, m⟩ : RawBorrow) :: rest →
      handle_borrows_attr fiK pre = .ok (fiK2, brs) →
      (∀ f ∈ fiK, f.name ≠ t) →
      collectFields raws = .error (.unknownIdentifier t)) := by
  constructor
  · intro raws fi h
    exact forwardOnly_collect (fun i f hf => by simp at hf) h
  · intro raws k fiK fiK2 rf pre rest t m brs h1 h2 h3 h4 h5
    have hnames : ∀ f ∈ fiK2, f.name ≠ t := by
      intro f hf
      have hmap := (handle_ok h4).1
      have hmem : f.name ∈ fiK2.map StructFieldInfo.name :=
        List.mem_map_of_mem _ hf
      rw [hmap] at hmem
      obtain ⟨g, hg, hgname⟩ := List.mem_map.mp hmem
      rw [← hgname]
      exact h5 g hg
    have hres : resolveBorrow fiK2 t m = .error (.unknownIdentifier t) := by
      unfold resolveBorrow
      simp only [findField_eq_none.mpr hnames]
    exact collect_error_at h1 h2 h3 h4 hres

/-- Witness for C3: the error conjunct at `exRawsUnknown` (whose second
field names the undeclared identifier `q`), and the forward-only conjunct at
the valid catalogue `exFields` (request of field 1 targets index 0 < 1). -/
theorem claim_c3_witness :
    collectFields exRawsUnknown = .error (.unknownIdentifier "q") ∧
    (⟨0, false⟩ : BorrowRequest).index < 1 :=
  ⟨claim_c3_forward_only.2 exRawsUnknown 1
      [⟨"a", "Box<i32>", .Tail, []⟩] [⟨"a", "Box<i32>", .Tail, []⟩]
      ⟨"b", "String", [⟨"q", false⟩]⟩ [] [] "q" false []
      rfl rfl rfl rfl (by decide),
    claim_c3_forward_only.1 exRaws exFields rfl 1
      ⟨"b", "String", .Tail, [⟨0, false⟩]⟩ (by decide) ⟨0, false⟩ (by decide)⟩

/-- C4: a field requested mutably twice, or immutably after a mutable
request, or mutably after an immutable request, makes generation abort with
the corresponding conflict diagnostic as soon as the offending request is
processed; consequently no accepted catalogue has a field with two mutable
requests or with both a mutable and an immutable request. -/
theorem claim_c4_conflicts_rejected :
    (∀ (raws : List RawField) (fi : List StructFieldInfo),
      collectFields raws = .ok fi →
      ∀ j : Nat,
        (requestFlagsTo fi j).count true ≤ 1 ∧
        ¬(true ∈ requestFlagsTo fi j ∧ false ∈ requestFlagsTo fi j)) ∧
    (∀ (raws : List RawField) (k : Nat) (fiK fiK2 : List StructFieldInfo)
       (rf : RawField) (pre rest : List RawBorrow) (t : String)
       (brs : List BorrowRequest) (i : Nat) (fld : StructFieldInfo),
      collectFields (raws.take k) = .ok fiK →
      raws[k]? = some rf →
      handle_borrows_attr fiK pre = .ok (fiK2, brs) →
      findField fiK2 t = some (i, fld) →
      ((rf.rawBorrows = pre ++ (⟨t, true⟩ : RawBorrow) :: rest →
          fld.field_type = .Borrowed →
          collectFields raws = .error (.mutAfterImm t)) ∧
       (rf.rawBorrows = pre ++ (⟨t, true⟩ : RawBorrow) :: rest →
          fld.field_type = .BorrowedMut →
          collectFields raws = .error (.doubleMut t)) ∧
       (rf.rawBorrows = pre ++ (⟨t, false⟩ : RawBorrow) :: rest →
          fld.field_type = .BorrowedMut →
          collectFields raws = .error (.immAfterMut t)))) := by
  constructor
  · intro raws fi h j
    have hcl : Classified fi (allReqs fi) := by
      refine classified_collect ⟨?_, ?_⟩ h
      · intro b hb
        simp [allReqs] at hb
      · intro j2 f hf
        simp at hf
    exact classified_flags hcl j
  · intro raws k fiK fiK2 rf pre rest t brs i fld h1 h2 h4 hff
    refine ⟨fun h3 hrole => ?_, fun h3 hrole => ?_, fun h3 hrole => ?_⟩
    · have hres : resolveBorrow fiK2 t true = .error (.mutAfterImm t) := by
        unfold resolveBorrow
        simp only [hff]
        simp [hrole]
      exact collect_error_at h1 h2 h3 h4 hres
    · have hres : resolveBorrow fiK2 t true = .error (.doubleMut t) := by
        unfold resolveBorrow
        simp only [hff]
        simp [hrole]
      exact collect_error_at h1 h2 h3 h4 hres
    · have hres : resolveBorrow fiK2 t false = .error (.immAfterMut t) := by
        unfold resolveBorrow
        simp only [hff]
        simp [hrole]
      exact collect_error_at h1 h2 h3 h4 hres

/-- Witness for C4: the three conflict inputs each abort with their specific
diagnostic, and on the accepted catalogue `exFields` the requests targeting
field 0 contain no mutable flag twice nor a mutable/immutable mix. -/
theorem claim_c4_witness :
    collectFields exRawsMutAfterImm = .error (.mutAfterImm "a") ∧
    collectFields exRawsDoubleMut = .error (.doubleMut "a") ∧
    collectFields exRawsImmAfterMut = .error (.immAfterMut "a") ∧
    (requestFlagsTo exFields 0).count true ≤ 1 ∧
    ¬(true ∈ requestFlagsTo exFields 0 ∧ false ∈ requestFlagsTo exFields 0) := by
  refine ⟨?_, ?_, ?_, ?_, ?_⟩
  · exact (claim_c4_conflicts_rejected.2 exRawsMutAfterImm 2 exFieldsAB
      exFieldsAB ⟨"c", "u8", [⟨"a", true⟩]⟩ [] [] "a" [] 0
      ⟨"a", "Box<i32>", .Borrowed, []⟩ rfl rfl rfl rfl).1 rfl rfl
  · exact (claim_c4_conflicts_rejected.2 exRawsDoubleMut 2 exFieldsMut
      exFieldsMut ⟨"c", "u8", [⟨"a", true⟩]⟩ [] [] "a" [] 0
      ⟨"a", "Box<i32>", .BorrowedMut, []⟩ rfl rfl rfl rfl).2.1 rfl rfl
  · exact (claim_c4_conflicts_rejected.2 exRawsImmAfterMut 2 exFieldsMut
      exFieldsMut ⟨"c", "u8", [⟨"a", false⟩]⟩ [] [] "a" [] 0
      ⟨"a", "Box<i32>", .BorrowedMut, []⟩ rfl rfl rfl rfl).2.2 rfl rfl
  · exact (claim_c4_conflicts_rejected.1 exRaws exFields rfl 0).1
  · exact (claim_c4_conflicts_rejected.1 exRaws exFields rfl 0).2

/-- C1 as frozen is false on the code: with the catalogue of `exRaws` (head
`a` at index 0, failing dependent field `b` at index 1, head `c` at index
2), `try_new_or_recover` returns the heads `a` AND `c`, although `c` has
declaration index 2, which is not `< 1`: the generated error branch returns
`Heads` built from ALL head parameters, which are bound at function entry. -/
theorem claim_c1_counterexample :
    runTryNewOrRecover exFields exTryArgs =
      (.error (0, [("a", 10), ("c", 30)]), [1]) ∧
    ("c", (30 : Nat)) ∈ [("a", (10 : Nat)), ("c", 30)] ∧
    ∀ p ∈ (exFields.take 1).map StructFieldInfo.name, p ≠ "c" :=
  ⟨rfl, by decide, by decide⟩

/-- C1 (amended): in the fallible path, if the callback for the k-th field
(declaration order) fails, no callback for any field k+1 or later is ever
invoked (every invoked index is at most k, the failing index), the
callback's error is propagated verbatim, and the recovering variant returns
alongside the error exactly the set of ALL head fields (fields with empty
borrow lists) with their argument values — all heads are plain parameters
bound at entry, including heads declared after the failing field. -/
theorem claim_c1_try_recover_error {V E : Type} [Inhabited V]
    (field_info : List StructFieldInfo) (args : List (TryCtorArg V E))
    (e : E) (hs : List (String × V)) (inv : List Nat)
    (h : runTryNewOrRecover field_info args = (.error (e, hs), inv)) :
    hs = headsOf field_info args ∧
    ∃ k, k ∈ inv ∧ (∀ j ∈ inv, j ≤ k) ∧
      ∃ f g, (field_info.zip args)[k]? = some (f, .builder g) ∧
        ∃ env2, g (depValues f env2) = .error e := by
  unfold runTryNewOrRecover at h
  obtain ⟨h1, k, hk1, hk2, _, f, g, hL, henv⟩ :=
    tryRecGo_error_spec 0 (field_info.zip args) [] e hs inv h
  exact ⟨h1, k, hk1, hk2, f, g, by simpa using hL, henv⟩

/-- Witness for C1 at the concrete failing run on `exFields`: the heads
returned are exactly `headsOf`, and the only invoked callback is index 1,
the failing one. -/
theorem claim_c1_witness :
    [("a", 10), ("c", 30)] = headsOf exFields exTryArgs ∧
    ∃ k, k ∈ [1] ∧ (∀ j ∈ [1], j ≤ k) ∧
      ∃ f g, (exFields.zip exTryArgs)[k]? = some (f, .builder g) ∧
        ∃ env2, g (depValues f env2) = .error 0 :=
  claim_c1_try_recover_error exFields exTryArgs 0 [("a", 10), ("c", 30)] [1]
    rfl

/-- C5: `into_heads` returns exactly the fields with empty borrow lists,
each holding its stored value unchanged (in storage order); the emitted body
places each field's statement (a drop for borrowing fields, a binding for
heads) at the storage position reversing its declaration index; and, under
the forward-only invariant, every borrowing field's statement comes strictly
before the statements of each field it references, so dependents are dropped
before their dependencies. -/
theorem claim_c5_into_heads {W : Type} (field_info : List StructFieldInfo)
    (vals : List W) :
    into_heads field_info vals =
      (((field_info.zip vals).filter fun p => p.1.borrows.isEmpty).map
        (fun p => (p.1.name, p.2))).reverse ∧
    (∀ (i : Nat) (f : StructFieldInfo), i < field_info.length →
      field_info[i]? = some f →
      (intoHeadsCode field_info)[field_info.length - 1 - i]? =
        some (if f.borrows.length > 0 then .dropOp f.name
              else .bindOp f.name)) ∧
    (ForwardOnly field_info →
      ∀ (i j : Nat) (f : StructFieldInfo), field_info[i]? = some f →
        (∃ b ∈ f.borrows, b.index = j) →
        field_info.length - 1 - i < field_info.length - 1 - j) := by
  refine ⟨into_heads_eq field_info vals, ?_, ?_⟩
  · intro i f hi hf
    exact intoHeadsCode_getElem? hi hf
  · intro hfw i j f hf hex
    obtain ⟨b, hb, hbj⟩ := hex
    have hji := hfw i f hf b hb
    have hi : i < field_info.length := by
      by_contra hc
      rw [List.getElem?_eq_none (by omega)] at hf
      cases hf
    omega

/-- Witness for C5 on `exFields` with values `[10, 20, 30]`: the heads come
back unchanged, the statement of field 1 (`b`, which borrows field 0) sits
at storage position 1 as a drop, and it precedes the binding of field 0. -/
theorem claim_c5_witness :
    into_heads exFields [10, 20, 30] =
      (((exFields.zip [10, 20, 30]).filter fun p => p.1.borrows.isEmpty).map
        (fun p => (p.1.name, p.2))).reverse ∧
    (intoHeadsCode exFields)[1]? = some (.dropOp "b") ∧
    exFields.length - 1 - 1 < exFields.length - 1 - 0 := by
  obtain ⟨w1, w2, w3⟩ := claim_c5_into_heads exFields ([10, 20, 30] : List Nat)
  refine ⟨w1, ?_, ?_⟩
  · have := w2 1 ⟨"b", "String", .Tail, [⟨0, false⟩]⟩ (by decide) (by decide)
    simpa using this
  · exact w3 exFields_forwardOnly 1 0 ⟨"b", "String", .Tail, [⟨0, false⟩]⟩
      (by decide) ⟨⟨0, false⟩, by decide, rfl⟩

/-- C6: a field with no borrow requests gets a plain constructor argument of
its declared type (in both the plain and the fallible constructor), whose
binding is `mut` exactly when the field's role is `BorrowedMut`; a field
with borrow requests gets a single-invocation callback argument named
`<field>_builder` whose parameters are, in request order, a reference
(mutable per the request's flag) to the dereferenced contents of each
borrowed field's declared type, returning the field's declared type in the
plain variant and a result wrapping it in the fallible variant. -/
theorem claim_c6_arg_shapes (field_info : List StructFieldInfo)
    (f : StructFieldInfo) :
    (f.borrows = [] →
      make_constructor_arg_type f field_info = .Plain f.typ ∧
      make_try_constructor_arg_type f field_info = .Plain f.typ ∧
      ctorParamOf field_info f =
        ⟨f.name, f.field_type == .BorrowedMut, .Plain f.typ⟩ ∧
      tryCtorParamOf field_info f =
        ⟨f.name, f.field_type == .BorrowedMut, .Plain f.typ⟩) ∧
    (f.borrows ≠ [] →
      make_constructor_arg_type f field_info =
        .TraitBound
          (f.borrows.map fun b =>
            (b.mutable, (field_info.getD b.index default).typ))
          (.plainRet f.typ) ∧
      make_try_constructor_arg_type f field_info =
        .TraitBound
          (f.borrows.map fun b =>
            (b.mutable, (field_info.getD b.index default).typ))
          (.resultRet f.typ) ∧
      ctorParamOf field_info f =
        ⟨f.name ++ "_builder", false,
          .TraitBound
            (f.borrows.map fun b =>
              (b.mutable, (field_info.getD b.index default).typ))
            (.plainRet f.typ)⟩) := by
  constructor
  · intro hb
    have h0 : (f.borrows.length == 0) = true := by simp [hb]
    have hm : make_constructor_arg_type f field_info = .Plain f.typ := by
      unfold make_constructor_arg_type make_constructor_arg_type_impl
      simp [h0]
    have hm2 : make_try_constructor_arg_type f field_info = .Plain f.typ := by
      unfold make_try_constructor_arg_type make_constructor_arg_type_impl
      simp [h0]
    refine ⟨hm, hm2, ?_, ?_⟩
    · unfold ctorParamOf
      simp only [hm]
    · unfold tryCtorParamOf
      simp only [hm2]
  · intro hb
    have h0 : (f.borrows.length == 0) = false := by
      simp only [beq_eq_false_iff_ne, ne_eq, List.length_eq_zero]
      exact hb
    have hm : make_constructor_arg_type f field_info =
        .TraitBound
          (f.borrows.map fun b =>
            (b.mutable, (field_info.getD b.index default).typ))
          (.plainRet f.typ) := by
      unfold make_constructor_arg_type make_constructor_arg_type_impl
      simp [h0]
    have hm2 : make_try_constructor_arg_type f field_info =
        .TraitBound
          (f.borrows.map fun b =>
            (b.mutable, (field_info.getD b.index default).typ))
          (.resultRet f.typ) := by
      unfold make_try_constructor_arg_type make_constructor_arg_type_impl
      simp [h0]
    refine ⟨hm, hm2, ?_⟩
    unfold ctorParamOf
    simp only [hm]

/-- Witness for C6: the head field `a` of `exFieldsMut` (role `BorrowedMut`,
hence a `mut` binding) and the dependent field `b` of `exFields` (one
immutable request on field 0 of declared type `Box<i32>`). -/
theorem claim_c6_witness :
    (make_constructor_arg_type ⟨"a", "Box<i32>", .BorrowedMut, []⟩
        exFieldsMut = .Plain "Box<i32>" ∧
      ctorParamOf exFieldsMut ⟨"a", "Box<i32>", .BorrowedMut, []⟩ =
        ⟨"a", true, .Plain "Box<i32>"⟩) ∧
    (make_constructor_arg_type ⟨"b", "String", .Tail, [⟨0, false⟩]⟩
        exFields =
      .TraitBound [(false, "Box<i32>")] (.plainRet "String") ∧
      make_try_constructor_arg_type ⟨"b", "String", .Tail, [⟨0, false⟩]⟩
        exFields =
      .TraitBound [(false, "Box<i32>")] (.resultRet "String")) := by
  have h1 := (claim_c6_arg_shapes exFieldsMut
    ⟨"a", "Box<i32>", .BorrowedMut, []⟩).1 rfl
  have h2 := (claim_c6_arg_shapes exFields
    ⟨"b", "String", .Tail, [⟨0, false⟩]⟩).2 (by decide)
  exact ⟨⟨h1.1, h1.2.2.1⟩, ⟨h2.1, h2.2.1⟩⟩

/-- C7: the immutable aggregate view contains exactly a reference to every
`Tail` field and the dereferenced contents of every `Borrowed` field
(nothing for `BorrowedMut` fields, nothing else at all); the mutable
aggregate view contains exactly a mutable reference to every `Tail` field;
and both views are handed to a scoped callback whose result is returned,
rather than being returned directly. -/
theorem claim_c7_aggregate_views {W R : Type}
    (field_info : List StructFieldInfo) :
    (∀ nm ty, (nm, ty) ∈ borrowedFieldsSpec field_info ↔
      ∃ f ∈ field_info,
        (f.field_type = .Tail ∧ nm = f.name ∧ ty = .refTo f.typ) ∨
        (f.field_type = .Borrowed ∧ nm = f.name ++ "_contents" ∧
          ty = .refToDerefTarget f.typ)) ∧
    (∀ nm ty, (nm, ty) ∈ borrowedMutFieldsSpec field_info ↔
      ∃ f ∈ field_info,
        f.field_type = .Tail ∧ nm = f.name ∧ ty = .mutRefTo f.typ) ∧
    (∀ (vals : List W) (user : List (String × W) → R),
      use_all_fields field_info vals user =
        user (viewValues field_info vals) ∧
      use_all_fields_mut field_info vals user =
        user (mutViewValues field_info vals)) :=
  ⟨borrowedFieldsSpec_mem field_info, borrowedMutFieldsSpec_mem field_info,
    fun _ _ => ⟨rfl, rfl⟩⟩

/-- C8: per-field accessor generation is exactly determined by role: a
`Tail` field gets the two scoped accessors `use_<f>` (immutable reference)
and `use_<f>_mut` (mutable reference), a `Borrowed` field gets exactly the
one accessor `use_<f>_contents` exposing only its dereferenced contents
immutably, a `BorrowedMut` field gets none; every generated accessor comes
from some field this way, and a scoped accessor hands the reference to the
callback and returns the callback's result. -/
theorem claim_c8_accessors {W R : Type} (field_info : List StructFieldInfo)
    (f : StructFieldInfo) :
    (∀ a, a ∈ make_use_functions field_info ↔
      ∃ g ∈ field_info, a ∈ accessorsFor g) ∧
    (f.field_type = .Tail →
      accessorsFor f = [⟨"use_" ++ f.name, f.name, .byRef⟩,
        ⟨"use_" ++ f.name ++ "_mut", f.name, .byMutRef⟩]) ∧
    (f.field_type = .Borrowed →
      accessorsFor f = [⟨"use_" ++ f.name ++ "_contents", f.name,
        .contentsRef⟩]) ∧
    (f.field_type = .BorrowedMut → accessorsFor f = []) ∧
    (∀ (v : W) (user : W → R), runAccessor v user = user v) := by
  refine ⟨make_use_functions_mem field_info, ?_, ?_, ?_, fun _ _ => rfl⟩ <;>
    · intro h
      unfold accessorsFor
      rw [h]

/-- Witness for C8 on concrete fields of each role. -/
theorem claim_c8_witness :
    accessorsFor ⟨"b", "String", .Tail, [⟨0, false⟩]⟩ =
      [⟨"use_" ++ "b", "b", .byRef⟩, ⟨"use_" ++ "b" ++ "_mut", "b",
        .byMutRef⟩] ∧
    accessorsFor ⟨"a", "Box<i32>", .Borrowed, []⟩ =
      [⟨"use_" ++ "a" ++ "_contents", "a", .contentsRef⟩] ∧
    accessorsFor ⟨"a", "Box<i32>", .BorrowedMut, []⟩ = [] :=
  ⟨(claim_c8_accessors (W := Nat) (R := Nat) exFields
      ⟨"b", "String", .Tail, [⟨0, false⟩]⟩).2.1 rfl,
    (claim_c8_accessors (W := Nat) (R := Nat) exFields
      ⟨"a", "Box<i32>", .Borrowed, []⟩).2.2.1 rfl,
    (claim_c8_accessors (W := Nat) (R := Nat) exFieldsMut
      ⟨"a", "Box<i32>", .BorrowedMut, []⟩).2.2.2.1 rfl⟩

/-- C9: the builder aggregates mirror the constructors' argument lists
one-to-one — the builder struct's field names, in push order, coincide with
the constructor parameter names in declaration order, for both the plain and
the fallible builder — and `build` / `try_build` / `try_build_or_recover`
forward the stored fields positionally to `new` / `try_new` /
`try_new_or_recover`, so builder construction is observably identical to
calling the constructor directly on the same arguments. -/
theorem claim_c9_builder_delegates {V E : Type} [Inhabited V]
    (field_info : List StructFieldInfo) :
    buildCallArgs field_info = (ctorParams field_info).map CtorParam.pname ∧
    (builderStructFields field_info).map Prod.fst =
      (ctorParams field_info).map CtorParam.pname ∧
    tryBuildCallArgs field_info =
      (tryCtorParams field_info).map CtorParam.pname ∧
    (tryBuilderStructFields field_info).map Prod.fst =
      (tryCtorParams field_info).map CtorParam.pname ∧
    (∀ stored : List (CtorArg V),
      builderBuild field_info stored = runNew field_info stored) ∧
    (∀ stored : List (TryCtorArg V E),
      tryBuilderTryBuild field_info stored = runTryNew field_info stored ∧
      tryBuilderTryBuildOrRecover field_info stored =
        runTryNewOrRecover field_info stored) := by
  have key : (builderStructFields field_info).map Prod.fst =
      (ctorParams field_info).map CtorParam.pname := by
    unfold builderStructFields ctorParams
    rw [List.map_map, List.map_map]
    apply List.map_congr_left
    intro f hf
    simp only [Function.comp]
    unfold builderFieldOf ctorParamOf
    cases make_constructor_arg_type f field_info <;> rfl
  have tkey : (tryBuilderStructFields field_info).map Prod.fst =
      (tryCtorParams field_info).map CtorParam.pname := by
    unfold tryBuilderStructFields tryCtorParams
    rw [List.map_map, List.map_map]
    apply List.map_congr_left
    intro f hf
    simp only [Function.comp]
    unfold tryBuilderFieldOf tryCtorParamOf
    cases make_try_constructor_arg_type f field_info <;> rfl
  exact ⟨key, key, tkey, tkey, fun _ => rfl, fun _ => ⟨rfl, rfl⟩⟩

/-- C10: arguments whose callbacks all succeed give `try_new` and
`try_new_or_recover` the same successful aggregate, equal to what `new`
produces from the corresponding non-result callbacks, with the same
callbacks invoked; and on arbitrary fallible arguments the two fallible
variants agree on success, on the propagated error (the recovering one
merely pairs it with the heads), and on the invoked callbacks — they differ
only in the error branch. -/
theorem claim_c10_try_agrees_with_new {V E : Type} [Inhabited V]
    (field_info : List StructFieldInfo) :
    (∀ args : List (CtorArg V),
      runTryNew (E := E) field_info (args.map liftArg) =
        (.ok (runNew field_info args).1, (runNew field_info args).2)) ∧
    (∀ args : List (CtorArg V),
      runTryNewOrRecover (E := E) field_info (args.map liftArg) =
        (.ok (runNew field_info args).1, (runNew field_info args).2)) ∧
    (∀ (targs : List (TryCtorArg V E)) (vs : List V),
      (runTryNew field_info targs).1 = .ok vs ↔
        (runTryNewOrRecover field_info targs).1 = .ok vs) ∧
    (∀ (targs : List (TryCtorArg V E)) (e : E),
      (runTryNew field_info targs).1 = .error e ↔
        (runTryNewOrRecover field_info targs).1 =
          .error (e, headsOf field_info targs)) ∧
    (∀ targs : List (TryCtorArg V E),
      (runTryNewOrRecover field_info targs).2 =
        (runTryNew field_info targs).2) := by
  have hrec : ∀ targs : List (TryCtorArg V E),
      runTryNewOrRecover field_info targs =
        ((runTryNew field_info targs).1.mapError
            (fun e => (e, headsOf field_info targs)),
          (runTryNew field_info targs).2) := by
    intro targs
    unfold runTryNewOrRecover runTryNew
    exact tryRecGo_eq_mapError (headsOf field_info targs) 0
      (field_info.zip targs) []
  refine ⟨?_, ?_, ?_, ?_, ?_⟩
  · intro args
    unfold runTryNew runNew
    rw [zip_map_lift]
    exact tryGo_lift 0 (field_info.zip args) []
  · intro args
    rw [hrec]
    unfold runTryNew runNew
    rw [zip_map_lift]
    rw [tryGo_lift 0 (field_info.zip args) []]
    rfl
  · intro targs vs
    rw [hrec]
    cases hr : (runTryNew field_info targs).1 with
    | ok vs2 => simp [Except.mapError]
    | error e => simp [Except.mapError]
  · intro targs e
    rw [hrec]
    cases hr : (runTryNew field_info targs).1 with
    | ok vs2 => simp [Except.mapError]
    | error e2 =>
      simp [Except.mapError]
  · intro targs
    rw [hrec]

end Ouroboros
